import Mathlib

/-!
Verification of the structured-output extraction and repair pipeline of the
test-case generator (source: `app_ui.py`).

The Python functions `extract_json_from_text`, `count_test_cases`,
`format_numbered_text`, `parse_test_cases_structured` and
`validate_and_format_testcases` are shallowly embedded below.  Python values
flowing through the pipeline (decoded JSON plus the strings the segmenting
parser builds) are modelled by `JVal`; fallible Python code is modelled in
`Except PyExc`, with one constructor per exception class that can reach the
embedded code.  Modelling choices: machine text is Lean `String`/`List Char`;
`str.strip` and the regex classes `\s`/`\d` use ASCII whitespace/digits
(the pipeline's vocabulary is ASCII punctuation plus CJK letters, which are
neither); JSON numbers keep their source lexeme (no float rounding is ever
observed by the pipeline); `\uXXXX` escapes are decoded for scalar code
points only (lone surrogates are rejected rather than stored).
-/

set_option maxRecDepth 100000

namespace App

/-- Python values reaching the pipeline: decoded JSON data and strings.
Numbers keep their source lexeme. -/
inductive JVal where
  | jnull
  | jbool (b : Bool)
  | jnum (lex : String)
  | jstr (s : String)
  | jarr (items : List JVal)
  | jobj (fields : List (String × JVal))

/-- Python exception classes that can be raised by the embedded code. -/
inductive PyExc where
  | jsonDecodeError
  | attributeError
  | typeError
  | keyError
deriving DecidableEq

/-- Whitespace for Python `str.strip()` and the regex class `\s`
(ASCII fragment; see header note). -/
def pyIsSpace (c : Char) : Bool :=
  [' ', '\t', '\n', '\r', '\x0b', '\x0c'].contains c

/-- Python `str.strip()`: drop leading and trailing whitespace. -/
def pyStrip (cs : List Char) : List Char :=
  ((cs.dropWhile pyIsSpace).reverse.dropWhile pyIsSpace).reverse

/-- First index at which `needle` occurs in `hay` (Python `str.find`,
with `none` for Python's `-1`). -/
def listFind (needle : List Char) : List Char → Option Nat
  | [] => if needle.isEmpty then some 0 else none
  | c :: t =>
    if needle.isPrefixOf (c :: t) then some 0
    else (listFind needle t).map (· + 1)

/-- Python `text.find(sub, start)`: search from `start`, absolute index. -/
def listFindFrom (needle hay : List Char) (start : Nat) : Option Nat :=
  (listFind needle (hay.drop start)).map (· + start)

/-- Python `sub in text` (substring containment). -/
def listContains (hay needle : List Char) : Bool :=
  (listFind needle hay).isSome

/-- Python `s.split(sep)` for a non-empty separator: split at every
occurrence, keeping empty pieces. Fuel-driven scan (fuel ≥ length suffices). -/
def splitOnAux (sep : List Char) : Nat → List Char → List Char → List (List Char)
  | 0, acc, rest => [acc.reverse ++ rest]
  | _ + 1, acc, [] => [acc.reverse]
  | fuel + 1, acc, c :: rest =>
    if sep.isPrefixOf (c :: rest) then
      acc.reverse :: splitOnAux sep fuel [] ((c :: rest).drop sep.length)
    else
      splitOnAux sep fuel (c :: acc) rest

/-- Python `s.split(sep)`. -/
def pySplitOn (cs sep : List Char) : List (List Char) :=
  splitOnAux sep cs.length [] cs

/-- Python `s.split(sep, 1)`: the part before the first occurrence of `sep`
and, when `sep` occurs, the part after it. -/
def pySplitOnce (cs sep : List Char) : List Char × Option (List Char) :=
  match listFind sep cs with
  | none => (cs, none)
  | some i => (cs.take i, some (cs.drop (i + sep.length)))

/-- Python `s.split()` (no separator): whitespace-run split, no empty pieces. -/
def splitWsAux : Nat → List Char → List (List Char)
  | 0, _ => []
  | fuel + 1, cs =>
    match cs.dropWhile pyIsSpace with
    | [] => []
    | c :: rest =>
      let tok := (c :: rest).takeWhile (fun x => !pyIsSpace x)
      tok :: splitWsAux fuel ((c :: rest).drop tok.length)

/-- Python `s.split()`. -/
def pySplitWs (cs : List Char) : List (List Char) :=
  splitWsAux cs.length cs

/-- Python `'\n'.join(pieces)` etc.: interleave a separator. -/
def joinWith (sep : List Char) : List (List Char) → List Char
  | [] => []
  | [p] => p
  | p :: q :: rest => p ++ sep ++ joinWith sep (q :: rest)

/-! ### String-level wrappers -/

/-- Python `sub in s` on `String`. -/
def strContains (s sub : String) : Bool :=
  listContains s.toList sub.toList

/-- Python `s.strip()` on `String`. -/
def strStrip (s : String) : String :=
  String.mk (pyStrip s.toList)

/-- Python `s.split(sep)` on `String`. -/
def strSplitOn (s sep : String) : List String :=
  (pySplitOn s.toList sep.toList).map String.mk

/-- Python `s.split()` on `String`. -/
def strSplitWs (s : String) : List String :=
  (pySplitWs s.toList).map String.mk

/-- Python `'\n'.join(lines)` on `String`. -/
def joinNL (lines : List String) : String :=
  String.mk (joinWith ['\n'] (lines.map String.toList))

/-! ### The `json.loads` model (strict decoder of the `json` module) -/

/-- JSON inter-token whitespace (the `json` module skips exactly these). -/
def jsonWs (c : Char) : Bool :=
  [' ', '\t', '\n', '\r'].contains c

/-- Skip JSON whitespace. -/
def skipJsonWs (cs : List Char) : List Char :=
  cs.dropWhile jsonWs

/-- Hex digit value. -/
def hexVal (c : Char) : Option Nat :=
  let n := c.toNat
  if n ≥ 48 && n ≤ 57 then some (n - 48)
  else if n ≥ 97 && n ≤ 102 then some (n - 87)
  else if n ≥ 65 && n ≤ 70 then some (n - 55)
  else none

/-- Four hex digits. -/
def hex4 (a b c d : Char) : Option Nat :=
  match hexVal a, hexVal b, hexVal c, hexVal d with
  | some va, some vb, some vc, some vd => some (va * 4096 + vb * 256 + vc * 16 + vd)
  | _, _, _, _ => none

/-- One-character JSON escapes. -/
def jsonEscape (c : Char) : Option Char :=
  [('"', '"'), ('\\', '\\'), ('/', '/'), ('b', '\x08'), ('f', '\x0c'),
   ('n', '\n'), ('r', '\r'), ('t', '\t')].lookup c

/-- Decode a JSON string body after the opening quote (strict mode: raw
control characters are rejected; surrogate pairs are combined). -/
def parseJStrAux : Nat → List Char → List Char → Option (String × List Char)
  | 0, _, _ => none
  | _ + 1, acc, '"' :: rest => some (String.mk acc.reverse, rest)
  | fuel + 1, acc, '\\' :: esc :: rest =>
    if esc == 'u' then
      match rest with
      | w :: x :: y :: z :: rest2 =>
        match hex4 w x y z with
        | none => none
        | some n =>
          if h1 : n < 0xd800 then
            parseJStrAux fuel (Char.ofNatAux n (Or.inl h1) :: acc) rest2
          else if n ≤ 0xdbff then
            match rest2 with
            | '\\' :: 'u' :: w2 :: x2 :: y2 :: z2 :: rest3 =>
              match hex4 w2 x2 y2 z2 with
              | none => none
              | some m =>
                if 0xdc00 ≤ m ∧ m ≤ 0xdfff then
                  let cp := 0x10000 + (n - 0xd800) * 0x400 + (m - 0xdc00)
                  parseJStrAux fuel (Char.ofNat cp :: acc) rest3
                else none
            | _ => none
          else if h2 : 0xe000 ≤ n ∧ n < 0x110000 then
            parseJStrAux fuel (Char.ofNatAux n (Or.inr h2) :: acc) rest2
          else none
      | _ => none
    else
      match jsonEscape esc with
      | some ch => parseJStrAux fuel (ch :: acc) rest
      | none => none
  | fuel + 1, acc, c :: rest =>
    if c.toNat < 0x20 then none else parseJStrAux fuel (c :: acc) rest
  | _ + 1, _, [] => none

/-- JSON number lexeme at the head of the input:
`-?(0|[1-9][0-9]*)(\.[0-9]+)?([eE][+-]?[0-9]+)?`. -/
def lexJNum (cs : List Char) : Option (List Char × List Char) :=
  let (sign, cs1) := match cs with
    | '-' :: r => (['-'], r)
    | _ => (([] : List Char), cs)
  let intLex : Option (List Char × List Char) := match cs1 with
    | '0' :: r => some (['0'], r)
    | c :: r =>
      if c.isDigit then
        let ds := (c :: r).takeWhile Char.isDigit
        some (ds, (c :: r).drop ds.length)
      else none
    | [] => none
  match intLex with
  | none => none
  | some (ip, cs2) =>
    let (fp, cs3) : List Char × List Char := match cs2 with
      | '.' :: r =>
        let ds := r.takeWhile Char.isDigit
        if ds.isEmpty then ([], cs2) else ('.' :: ds, r.drop ds.length)
      | _ => ([], cs2)
    let (ep, cs4) : List Char × List Char := match cs3 with
      | e :: r =>
        if e == 'e' || e == 'E' then
          let (sg, r2) : List Char × List Char := match r with
            | '+' :: r2 => (['+'], r2)
            | '-' :: r2 => (['-'], r2)
            | _ => ([], r)
          let ds := r2.takeWhile Char.isDigit
          if ds.isEmpty then ([], cs3) else (e :: (sg ++ ds), r2.drop ds.length)
        else ([], cs3)
      | [] => ([], cs3)
    some (sign ++ ip ++ fp ++ ep, cs4)

/-- The literal tokens the scanner recognises (the `json` module also
accepts the three non-finite floats). -/
def jsonLits : List (String × JVal) :=
  [("true", .jbool true), ("false", .jbool false), ("null", .jnull),
   ("NaN", .jnum "NaN"), ("Infinity", .jnum "Infinity"),
   ("-Infinity", .jnum "-Infinity")]

/-- Insert into a decoded object, Python-dict style: a repeated key replaces
the value in place, so decoded objects have pairwise-distinct keys. -/
def objInsert (k : String) (v : JVal) : List (String × JVal) → List (String × JVal)
  | [] => [(k, v)]
  | (k0, v0) :: rest =>
    if k0 == k then (k0, v) :: rest else (k0, v0) :: objInsert k v rest

mutual

/-- Parse one JSON value at the head of the input (leading whitespace allowed),
mirroring the `json` module's scanner (which also accepts `NaN`,
`Infinity` and `-Infinity`). -/
def parseJVal : Nat → List Char → Option (JVal × List Char)
  | 0, _ => none
  | fuel + 1, cs =>
    match skipJsonWs cs with
    | '"' :: rest => (parseJStrAux (rest.length + 1) [] rest).map (fun (s, r) => (.jstr s, r))
    | '{' :: rest => parseJObj fuel [] rest
    | '[' :: rest => parseJArr fuel [] rest
    | other =>
      match jsonLits.find? (fun p => p.1.toList.isPrefixOf other) with
      | some p => some (p.2, other.drop p.1.toList.length)
      | none => (lexJNum other).map (fun (lex, r) => (.jnum (String.mk lex), r))

/-- Parse array items after `[` (with `acc` holding items parsed so far). -/
def parseJArr : Nat → List JVal → List Char → Option (JVal × List Char)
  | 0, _, _ => none
  | fuel + 1, acc, cs =>
    match skipJsonWs cs with
    | ']' :: rest => if acc.isEmpty then some (.jarr [], rest) else none
    | cs' =>
      match parseJVal fuel cs' with
      | none => none
      | some (v, r) =>
        match skipJsonWs r with
        | ',' :: rest => parseJArr fuel (v :: acc) rest
        | ']' :: rest => some (.jarr (v :: acc).reverse, rest)
        | _ => none

/-- Parse object members after `{`. -/
def parseJObj : Nat → List (String × JVal) → List Char → Option (JVal × List Char)
  | 0, _, _ => none
  | fuel + 1, acc, cs =>
    match skipJsonWs cs with
    | '}' :: rest => if acc.isEmpty then some (.jobj [], rest) else none
    | '"' :: rest =>
      match parseJStrAux (rest.length + 1) [] rest with
      | none => none
      | some (k, r1) =>
        match skipJsonWs r1 with
        | ':' :: r2 =>
          match parseJVal fuel r2 with
          | none => none
          | some (v, r3) =>
            match skipJsonWs r3 with
            | ',' :: rest2 => parseJObj fuel (objInsert k v acc) rest2
            | '}' :: rest2 => some (.jobj (objInsert k v acc), rest2)
            | _ => none
        | _ => none
    | _ => none

end

/-- The `json.loads` model: parse the whole string; trailing whitespace only.  Its
single failure mode is `json.JSONDecodeError`. -/
def pyJsonLoads (s : String) : Except PyExc JVal :=
  match parseJVal (s.toList.length + 1) s.toList with
  | some (v, rest) =>
    if (skipJsonWs rest).isEmpty then .ok v else .error .jsonDecodeError
  | none => .error .jsonDecodeError

/-! ### The regex `(\d+\.\s)` of `format_numbered_text` -/

/-- Anchored match of `\d+\.\s`: a maximal digit run, a dot, one whitespace
character (backtracking on `\d+` cannot help, since a shorter run is followed
by a digit, not a dot).  Returns the matched lexeme and the remainder. -/
def matchNum (cs : List Char) : Option (List Char × List Char) :=
  let ds := cs.takeWhile Char.isDigit
  if ds.isEmpty then none
  else match cs.drop ds.length with
    | '.' :: c :: rest => if pyIsSpace c then some (ds ++ ['.', c], rest) else none
    | _ => none

/-- The split `re.split(r'(\d+\.\s)', text)`: alternating non-match and captured
delimiter parts, first and last parts possibly empty. -/
def reSplitNumAux : Nat → List Char → List Char → List (List Char)
  | 0, acc, rest => [acc.reverse ++ rest]
  | _ + 1, acc, [] => [acc.reverse]
  | fuel + 1, acc, c :: rest =>
    match matchNum (c :: rest) with
    | some (m, r) => acc.reverse :: m :: reSplitNumAux fuel [] r
    | none => reSplitNumAux fuel (c :: acc) rest

/-- The split `re.split(r'(\d+\.\s)', text)`. -/
def reSplitNum (cs : List Char) : List (List Char) :=
  reSplitNumAux cs.length [] cs

/-- The reassembly loop of `format_numbered_text`: a part matching the
pattern is glued to the stripped next part; other parts are stripped and
kept when non-empty. -/
def fmtLoop : List (List Char) → List (List Char)
  | [] => []
  | p :: rest =>
    if (matchNum p).isSome then
      match rest with
      | q :: rest2 => (p ++ pyStrip q) :: fmtLoop rest2
      | [] => [p]
    else
      let s := pyStrip p
      if s.isEmpty then fmtLoop rest else s :: fmtLoop rest

/-- The function `format_numbered_text` (string case): re-flow inline `N. ` numbering
into one item per line. -/
def format_numbered_text (text : String) : String :=
  if text.isEmpty then text
  else
    let parts := reSplitNum text.toList
    if parts.length ≤ 1 then text
    else String.mk (joinWith ['\n'] (fmtLoop parts))

/-! ### Python value semantics: truthiness, equality, containment -/

/-- Mantissa/exponent view of a JSON number lexeme (`none` for the
non-finite literals). -/
def numVal (lex : String) : Option (Int × Int) :=
  if lex == "NaN" || lex == "Infinity" || lex == "-Infinity" then none
  else
    let cs := lex.toList
    let neg : Bool := cs.head? == some '-'
    let cs1 : List Char := if neg then cs.drop 1 else cs
    let ip := cs1.takeWhile Char.isDigit
    let rest1 := cs1.drop ip.length
    let (fp, rest2) : List Char × List Char := match rest1 with
      | '.' :: r => (r.takeWhile Char.isDigit, r.drop (r.takeWhile Char.isDigit).length)
      | _ => ([], rest1)
    let expVal : Int := match rest2 with
      | e :: r =>
        if e == 'e' || e == 'E' then
          match r with
          | '-' :: r2 => -(Int.ofNat ((r2.takeWhile Char.isDigit).foldl
              (fun a c => 10 * a + (c.toNat - 48)) 0))
          | '+' :: r2 => Int.ofNat ((r2.takeWhile Char.isDigit).foldl
              (fun a c => 10 * a + (c.toNat - 48)) 0)
          | r2 => Int.ofNat ((r2.takeWhile Char.isDigit).foldl
              (fun a c => 10 * a + (c.toNat - 48)) 0)
        else 0
      | [] => 0
    let mantissa : Int :=
      Int.ofNat ((ip ++ fp).foldl (fun a c => 10 * a + (c.toNat - 48)) 0)
    some (if neg then -mantissa else mantissa, expVal - fp.length)

/-- Python `==` on numbers (exact decimals; see header note on floats).
`NaN` compares unequal to everything, the infinities only to themselves. -/
def pyNumEq (a b : String) : Bool :=
  match numVal a, numVal b with
  | some (m1, e1), some (m2, e2) =>
    if e1 ≥ e2 then m1 * (10 : Int) ^ (e1 - e2).toNat == m2
    else m1 == m2 * (10 : Int) ^ (e2 - e1).toNat
  | _, _ => a == b && a != "NaN"

/-- Whether a number lexeme denotes zero (for truthiness). -/
def numIsZero (lex : String) : Bool :=
  let m := lex.toList.takeWhile (fun c => c != 'e' && c != 'E')
  let ds := m.filter Char.isDigit
  !ds.isEmpty && ds.all (· == '0')

/-- Python truthiness. -/
def pyTruthy : JVal → Bool
  | .jnull => false
  | .jbool b => b
  | .jnum lex => !numIsZero lex
  | .jstr s => !s.isEmpty
  | .jarr l => !l.isEmpty
  | .jobj f => !f.isEmpty

/-- Key lookup in a decoded object (keys are pairwise distinct after
`objInsert`, so the first binding is the binding). -/
def jobjLookup (fs : List (String × JVal)) (k : String) : Option JVal :=
  (fs.find? (fun p => p.1 == k)).map (·.2)

mutual

/-- Python `==` on decoded values, fuel-driven (`True == 1`, lists
pointwise, dicts as key sets with equal values). -/
def pyEqJ : Nat → JVal → JVal → Bool
  | 0, _, _ => false
  | fuel + 1, a, b =>
    match a, b with
    | .jnull, .jnull => true
    | .jbool x, .jbool y => x == y
    | .jbool x, .jnum l => pyNumEq (if x then "1" else "0") l
    | .jnum l, .jbool y => pyNumEq l (if y then "1" else "0")
    | .jnum x, .jnum y => pyNumEq x y
    | .jstr x, .jstr y => x == y
    | .jarr xs, .jarr ys => listEqJ fuel xs ys
    | .jobj xs, .jobj ys =>
      xs.length == ys.length &&
        xs.all (fun p => match jobjLookup ys p.1 with
          | some w => pyEqJ fuel p.2 w
          | none => false)
    | _, _ => false

/-- Pointwise Python `==` on lists. -/
def listEqJ : Nat → List JVal → List JVal → Bool
  | 0, _, _ => false
  | _ + 1, [], [] => true
  | fuel + 1, x :: xs, y :: ys => pyEqJ fuel x y && listEqJ fuel xs ys
  | _ + 1, _, _ => false

end

mutual

/-- Total node count of a value (a computable fuel bound for `pyEqJ`). -/
def jsize : JVal → Nat
  | .jnull => 1
  | .jbool _ => 1
  | .jnum _ => 1
  | .jstr _ => 1
  | .jarr items => 1 + jsizeList items
  | .jobj fs => 1 + jsizeFields fs

/-- Node count of a list of values. -/
def jsizeList : List JVal → Nat
  | [] => 0
  | x :: xs => 1 + jsize x + jsizeList xs

/-- Node count of an object's members. -/
def jsizeFields : List (String × JVal) → Nat
  | [] => 0
  | (_, v) :: fs => 1 + jsize v + jsizeFields fs

end

/-- Python `==` on decoded values. -/
def pyEq (a b : JVal) : Bool :=
  pyEqJ (jsize a + jsize b) a b

/-- Whether a value is hashable (may enter a `set`). -/
def pyHashable : JVal → Bool
  | .jarr _ => false
  | .jobj _ => false
  | _ => true

/-- Insertion step of `set(...)`: keep one representative per `==`-class. -/
def dedupAdd (seen : List JVal) (x : JVal) : List JVal :=
  if seen.any (fun z => pyEq x z) then seen else x :: seen

/-- Python `set(ids)` as the list of its distinct representatives. -/
def dedupList : List JVal → List JVal → List JVal
  | seen, [] => seen
  | seen, x :: rest => dedupList (dedupAdd seen x) rest

/-- Python `len(set(l))`; raises `TypeError` on an unhashable member. -/
def pySetSize (l : List JVal) : Except PyExc Nat :=
  if l.all pyHashable then .ok (dedupList [] l).length else .error .typeError

/-- Python `k in v` for a string key/needle `k`. -/
def pyIn (k : String) (v : JVal) : Except PyExc Bool :=
  match v with
  | .jobj f => .ok (f.any (fun p => p.1 == k))
  | .jarr items => .ok (items.any (fun x => pyEq (.jstr k) x))
  | .jstr s => .ok (strContains s k)
  | _ => .error .typeError

/-- Python `v[k]` for a string key. -/
def pyIndexStr (v : JVal) (k : String) : Except PyExc JVal :=
  match v with
  | .jobj f =>
    match jobjLookup f k with
    | some x => .ok x
    | none => .error .keyError
  | _ => .error .typeError

/-- Python `len(v)`. -/
def pyLen (v : JVal) : Except PyExc Nat :=
  match v with
  | .jstr s => .ok s.length
  | .jarr l => .ok l.length
  | .jobj f => .ok f.length
  | _ => .error .typeError

/-! ### `extract_json_from_text` -/

/-- Prefix test `pre.isPrefixOf s` as Python `s.startswith(pre)`. -/
def strStarts (s pre : String) : Bool :=
  pre.toList.isPrefixOf s.toList

/-- The body of `extract_json_from_text` before its `except` clause: fenced
`json` block first (between the opener and the next fence), else the whole
string.  A missing closing fence falls through to the whole string. -/
def extractBody (text : String) : Except PyExc JVal :=
  if strContains text "```json" && strContains text "```" then
    match listFind "```json".toList text.toList with
    | some startIdx =>
      match listFindFrom "```".toList text.toList (startIdx + 7) with
      | some endIdx =>
        pyJsonLoads (String.mk
          (pyStrip ((text.toList.drop (startIdx + 7)).take (endIdx - (startIdx + 7)))))
      | none => pyJsonLoads text
    | none => pyJsonLoads text
  else pyJsonLoads text

/-- The function `extract_json_from_text`: the body with `json.JSONDecodeError` and
`AttributeError` caught as `None`; any other exception would propagate. -/
def extract_json_from_text (text : String) : Except PyExc (Option JVal) :=
  match extractBody text with
  | .ok v => .ok (some v)
  | .error .jsonDecodeError => .ok none
  | .error .attributeError => .ok none
  | .error e => .error e

/-! ### `count_test_cases` -/

/-- Number of lines whose stripped form starts with `## `. -/
def mdHeadingCount (text : String) : Nat :=
  ((strSplitOn text "\n").filter (fun l => strStarts (strStrip l) "## ")).length

/-- The function `count_test_cases`: JSON count when a truthy decoded value holds the
`test_cases` key, else the markdown heading count.  The dispatch on the
extraction result: -/
def countDispatch (markdown : String) : Option JVal → Except PyExc Nat
  | none => .ok (mdHeadingCount markdown)
  | some j =>
    if pyTruthy j then
      match pyIn "test_cases" j with
      | .error e => .error e
      | .ok b =>
        if b then
          match pyIndexStr j "test_cases" with
          | .error e => .error e
          | .ok tcs => pyLen tcs
        else .ok (mdHeadingCount markdown)
    else .ok (mdHeadingCount markdown)

/-- The function `count_test_cases`, assembled. -/
def count_test_cases (markdown : String) : Except PyExc Nat :=
  match extract_json_from_text markdown with
  | .error e => .error e
  | .ok jd => countDispatch markdown jd

/-! ### `parse_test_cases_structured` -/

/-- The canonical record (one row of the output table). -/
structure TC where
  caseId : JVal
  title : JVal
  level : JVal
  priority : JVal
  precondition : JVal
  steps : JVal
  expected : JVal

/-- Python `tc.get(key, "未指定")` on a decoded mapping. -/
def jGet (f : List (String × JVal)) (k : String) : JVal :=
  (jobjLookup f k).getD (.jstr "未指定")

/-- The function `format_numbered_text` on an arbitrary Python value: falsy values are
returned unchanged, truthy strings are re-flowed, any other truthy value
makes `re.split` raise `TypeError`. -/
def fmtJ (v : JVal) : Except PyExc JVal :=
  if !pyTruthy v then .ok v
  else match v with
    | .jstr s => .ok (.jstr (format_numbered_text s))
    | _ => .error .typeError

/-- A `mapM` over `Except`, aborting at the first error (the Python loop). -/
def exceptMapM {α β : Type} (f : α → Except PyExc β) : List α → Except PyExc (List β)
  | [] => .ok []
  | x :: xs =>
    match f x with
    | .error e => .error e
    | .ok y =>
      match exceptMapM f xs with
      | .error e => .error e
      | .ok ys => .ok (y :: ys)

/-- One JSON-branch record: field defaults `"未指定"`, the user-chosen test
level, numbering normalization on steps and expected result.  A non-mapping
element makes `tc.get` raise `AttributeError`. -/
def jsonTcRecord (testLevel : String) (tc : JVal) : Except PyExc TC :=
  match tc with
  | .jobj f =>
    match fmtJ (jGet f "steps") with
    | .error e => .error e
    | .ok st =>
      match fmtJ (jGet f "expected_result") with
      | .error e => .error e
      | .ok er =>
        .ok { caseId := jGet f "case_id", title := jGet f "title",
              level := .jstr testLevel, priority := jGet f "priority",
              precondition := jGet f "precondition", steps := st, expected := er }
  | _ => .error .attributeError

/-- The JSON branch: iterate `json_data["test_cases"]`.  Iterating a
non-empty string or mapping hits `tc.get` on a string (`AttributeError`);
iterating a scalar raises `TypeError`. -/
def jsonBranch (testLevel : String) (tcs : JVal) : Except PyExc (List TC) :=
  match tcs with
  | .jarr items => exceptMapM (jsonTcRecord testLevel) items
  | .jstr s => if s.isEmpty then .ok [] else .error .attributeError
  | .jobj f => if f.isEmpty then .ok [] else .error .attributeError
  | _ => .error .typeError

/-- A line opening a new block: its stripped form starts with `## `. -/
def isHeadingLine (l : String) : Bool :=
  strStarts (strStrip l) "## "

/-- The block accumulation loop (`cur` holds the current block's lines in
reverse): a heading line flushes the current block and starts a new one. -/
def splitBlocksAux : List String → List String → List String
  | cur, [] => if cur.isEmpty then [] else [joinNL cur.reverse]
  | cur, l :: rest =>
    if isHeadingLine l then
      if cur.isEmpty then splitBlocksAux [l] rest
      else joinNL cur.reverse :: splitBlocksAux [l] rest
    else splitBlocksAux (l :: cur) rest

/-- Split a document's lines into per-test-case blocks. -/
def splitBlocks (lines : List String) : List String :=
  splitBlocksAux [] lines

/-- First whitespace-token of `line` starting with `TC` (case-sensitive). -/
def tcWordOf (line : String) : Option String :=
  (strSplitWs line).find? (fun w => strStarts w "TC")

/-- Identifier from an explicit `用例ID` line: text after the first ASCII
colon, else after the first full-width colon, else the line's first
`TC`-token. -/
def blockIdPhase1 (block : String) : String :=
  if strContains block "用例ID" then
    match (strSplitOn block "\n").filter (fun l => strContains l "用例ID") with
    | [] => "未指定"
    | idLine :: _ =>
      if strContains idLine ":" then
        match (pySplitOnce idLine.toList [':']).2 with
        | some after => String.mk (pyStrip after)
        | none => "未指定"
      else if strContains idLine "：" then
        match (pySplitOnce idLine.toList ['：']).2 with
        | some after => String.mk (pyStrip after)
        | none => "未指定"
      else
        match tcWordOf idLine with
        | some w => strStrip w
        | none => "未指定"
  else "未指定"

/-- The block's identifier: the explicit `用例ID` value, or — when that
leaves the sentinel — the first `TC`-token of the block's FIRST line,
scanned only when that line contains `TC-` or `TC_`. -/
def blockId (block : String) : String :=
  let v := blockIdPhase1 block
  if v == "未指定" then
    let headerLine := match strSplitOn block "\n" with
      | [] => ""
      | h :: _ => h
    if strContains headerLine "TC-" || strContains headerLine "TC_" then
      match tcWordOf headerLine with
      | some w => strStrip w
      | none => v
    else v
  else v

/-- The labelled-field vocabulary of the segmenting parser. -/
def fieldNames : List String := ["标题", "测试级别", "优先级", "前置条件", "测试步骤", "预期结果"]

/-- The bolded label marker of a field. -/
def fieldMarker (k : String) : String := "**" ++ k ++ "**"

/-- Whether a line carries any field's label marker. -/
def isFieldLine (l : String) : Bool :=
  fieldNames.any (fun k => strContains l (fieldMarker k))

/-- Value of field `k` in a block's lines: from after the colon on the
label line, plus following lines up to the next label line, stripped. -/
def extractField (lines : List String) (k : String) : Option String :=
  match lines.findIdx? (fun l => strContains l (fieldMarker k)) with
  | none => none
  | some start =>
    match lines.drop start with
    | [] => none
    | startLine :: after =>
      let stop := match after.findIdx? isFieldLine with
        | some j => j
        | none => after.length
      let firstLineContent :=
        if strContains startLine ":" then
          match (pySplitOnce startLine.toList [':']).2 with
          | some a => String.mk (pyStrip a)
          | none => ""
        else if strContains startLine "：" then
          match (pySplitOnce startLine.toList ['：']).2 with
          | some a => String.mk (pyStrip a)
          | none => ""
        else ""
      let contentLines :=
        (if firstLineContent.isEmpty then [] else [firstLineContent]) ++ after.take stop
      some (strStrip (joinNL contentLines))

/-- Value of field `k` of a block, with the sentinel default. -/
def segField (block k : String) : String :=
  match extractField (strSplitOn block "\n") k with
  | none => "未指定"
  | some t => t

/-- Like `segField`, with the numbering normalization applied to a found
value (the treatment of steps and expected result). -/
def segFieldFmt (block k : String) : String :=
  match extractField (strSplitOn block "\n") k with
  | none => "未指定"
  | some t => format_numbered_text t

/-- Parse one block: skip blank blocks, find the identifier and the six
labelled fields (steps and expected result re-flowed), and drop the block
when the identifier is still the sentinel. -/
def parseBlock (block : String) : Option TC :=
  if (pyStrip block.toList).isEmpty then none
  else if blockId block == "未指定" then none
  else some {
    caseId := .jstr (blockId block),
    title := .jstr (segField block "标题"),
    level := .jstr (segField block "测试级别"),
    priority := .jstr (segField block "优先级"),
    precondition := .jstr (segField block "前置条件"),
    steps := .jstr (segFieldFmt block "测试步骤"),
    expected := .jstr (segFieldFmt block "预期结果") }

/-- The segmenting (non-JSON) branch of `parse_test_cases_structured`. -/
def parseSegmenting (text : String) : List TC :=
  (splitBlocks (strSplitOn text "\n")).filterMap parseBlock

/-- The function `parse_test_cases_structured`: the JSON branch when a truthy decoded
value holds the `test_cases` key, else the segmenting branch.  The record's
test level comes from the user's selection `testLevel`.  The dispatch on
the extraction result: -/
def parseDispatch (testLevel text : String) : Option JVal → Except PyExc (List TC)
  | none => .ok (parseSegmenting text)
  | some j =>
    if pyTruthy j then
      match pyIn "test_cases" j with
      | .error e => .error e
      | .ok b =>
        if b then
          match pyIndexStr j "test_cases" with
          | .error e => .error e
          | .ok tcs => jsonBranch testLevel tcs
        else .ok (parseSegmenting text)
    else .ok (parseSegmenting text)

/-- The function `parse_test_cases_structured`, assembled. -/
def parse_test_cases_structured (testLevel : String) (text : String) :
    Except PyExc (List TC) :=
  match extract_json_from_text text with
  | .error e => .error e
  | .ok jd => parseDispatch testLevel text jd

/-! ### `validate_and_format_testcases` -/

/-- The count-mismatch warning text. -/
def countWarning (actual expected : Nat) : String :=
  "\n\n> ⚠️ **警告**: 生成了 " ++ toString actual ++ " 条测试用例，但要求是 "
    ++ toString expected ++ " 条。"

/-- The duplicate-identifier warning text. -/
def dupWarning : String := "\n\n> ⚠️ **警告**: 存在重复的测试用例ID，请检查。"

/-- The function `validate_and_format_testcases`: append a count warning when the counted
number differs from the expected one, and a duplicate warning when the
parsed records' identifiers are not pairwise distinct. -/
def validate_and_format_testcases (testLevel : String) (rawOutput : String)
    (expectedCount : Nat) : Except PyExc String :=
  match count_test_cases rawOutput with
  | .error e => .error e
  | .ok actualCount =>
    let formatted :=
      if actualCount ≠ expectedCount then
        rawOutput ++ countWarning actualCount expectedCount
      else rawOutput
    match parse_test_cases_structured testLevel rawOutput with
    | .error e => .error e
    | .ok data =>
      if data.isEmpty then .ok formatted
      else
        match pySetSize (data.map (·.caseId)) with
        | .error e => .error e
        | .ok uniqueSize =>
          if uniqueSize ≠ data.length then .ok (formatted ++ dupWarning)
          else .ok formatted

/-- Whether every field of a record is a Python string. -/
def allStringFields (r : TC) : Bool :=
  match r with
  | ⟨.jstr _, .jstr _, .jstr _, .jstr _, .jstr _, .jstr _, .jstr _⟩ => true
  | _ => false

/-! ## Helper lemmas -/

/-- The `json.loads` model fails only with `json.JSONDecodeError`. -/
theorem pyJsonLoads_error {s : String} {e : PyExc} (h : pyJsonLoads s = .error e) :
    e = .jsonDecodeError := by
  unfold pyJsonLoads at h
  split at h
  · split at h
    · exact absurd h (by simp)
    · simp only [Except.error.injEq] at h
      exact h.symm
  · simp only [Except.error.injEq] at h
    exact h.symm

/-- The `except` clause of `extract_json_from_text` covers every exception
its body can raise: the function always returns (a value or `None`). -/
theorem extractTotal (text : String) :
    ∃ v : Option JVal, extract_json_from_text text = .ok v := by
  unfold extract_json_from_text
  rcases hb : extractBody text with e | v
  · have he : e = .jsonDecodeError := by
      unfold extractBody at hb
      split at hb
      · split at hb
        · split at hb
          · exact pyJsonLoads_error hb
          · exact pyJsonLoads_error hb
        · exact pyJsonLoads_error hb
      · exact pyJsonLoads_error hb
    subst he
    exact ⟨none, rfl⟩
  · exact ⟨some v, rfl⟩

/-! ## Claim C1 -/

/-- The C1 scenario input as written in the spec: a fenced json block whose
collection key is `records` and whose identifier key is `id`. -/
def c1RawRecords : String :=
  "```json\n\x7b\"records\":[\x7b\"id\":\"TC-LOG-001\",\"priority\":\"P0\","
    ++ "\"title\":\"Login success\",\"precondition\":\"User exists\","
    ++ "\"steps\":\"1. Open page\\n2. Enter credentials\","
    ++ "\"expected_result\":\"1. Redirect to home\"\x7d]\x7d\n```"

/-- The same scenario under the schema's actual naming: collection key
`test_cases`, identifier key `case_id`. -/
def c1RawTestCases : String :=
  "```json\n\x7b\"test_cases\":[\x7b\"case_id\":\"TC-LOG-001\",\"priority\":\"P0\","
    ++ "\"title\":\"Login success\",\"precondition\":\"User exists\","
    ++ "\"steps\":\"1. Open page\\n2. Enter credentials\","
    ++ "\"expected_result\":\"1. Redirect to home\"\x7d]\x7d\n```"

/-- C1, counterexample: on the spec's input (collection key `records`,
identifier key `id`) the pipeline produces NO record — the code only
recognises the key `test_cases` — and, with expected count 1, appends a
count warning ("generated 0, required 1") instead of no warning. -/
theorem c1_records_input_yields_no_record_and_a_warning :
    parse_test_cases_structured "系统测试" c1RawRecords = .ok [] ∧
    validate_and_format_testcases "系统测试" c1RawRecords 1 =
      .ok (c1RawRecords ++ countWarning 0 1) :=
  ⟨rfl, rfl⟩

/-- C1, amended: with the schema's actual naming (`test_cases` / `case_id`)
and expected count 1, the pipeline produces exactly one record with
identifier `TC-LOG-001` and appends no warning. -/
theorem c1_testcases_input_yields_one_record_and_no_warning :
    parse_test_cases_structured "系统测试" c1RawTestCases =
      .ok [⟨.jstr "TC-LOG-001", .jstr "Login success", .jstr "系统测试",
            .jstr "P0", .jstr "User exists",
            .jstr "1. Open page\n2. Enter credentials",
            .jstr "1. Redirect to home"⟩] ∧
    validate_and_format_testcases "系统测试" c1RawTestCases 1 = .ok c1RawTestCases :=
  ⟨rfl, rfl⟩

/-! ## Claim C3 -/

/-- C3: the numbered-line normalization is NOT idempotent; the claim is the
code's evident intent (the function documents itself as removing extra
blank lines, yet its second application inserts one).  On `"5.2. b"` one
application gives `"5.\n2. b"`; the second application re-splits at the
newly created `5.` + newline boundary and yields `"5.\n\n2. b"`. -/
theorem format_numbered_text_not_idempotent :
    format_numbered_text "5.2. b" = "5.\n2. b" ∧
    format_numbered_text (format_numbered_text "5.2. b") = "5.\n\n2. b" ∧
    format_numbered_text (format_numbered_text "5.2. b") ≠
      format_numbered_text "5.2. b" :=
  ⟨rfl, rfl, by decide⟩

/-! ## Claim C2, counterexample -/

/-- A well-formed document matching the schema whose steps field carries
inline numbering. -/
def c2RawInline : String :=
  "\x7b\"test_cases\":[\x7b\"case_id\":\"TC-1\",\"priority\":\"P1\",\"title\":\"t\","
    ++ "\"precondition\":\"p\",\"steps\":\"1. a 2. b\",\"expected_result\":\"r\"\x7d]\x7d"

/-- C2, counterexample: extraction + validation does NOT reproduce the
original records field-for-field — the steps value `"1. a 2. b"` comes back
re-flowed as `"1. a\n2. b"`. -/
theorem c2_roundtrip_fails_on_inline_numbering :
    (parse_test_cases_structured "系统测试" c2RawInline).map (·.map (·.steps)) =
      .ok [.jstr "1. a\n2. b"] ∧
    ("1. a\n2. b" : String) ≠ "1. a 2. b" :=
  ⟨rfl, by decide⟩

/-! ## Claim C4, counterexample -/

/-- A document whose text before the first `## ` heading itself carries a
`用例ID` line. -/
def c4RawPreamble : String := "用例ID: TC-PRE-001\n## A\n用例ID: TC-A-001"

/-- C4, counterexample: the text before the first heading is NOT discarded —
it forms an initial block that yields the record `TC-PRE-001`. -/
theorem c4_preamble_contributes_a_record :
    (parse_test_cases_structured "系统测试" c4RawPreamble).map (·.map (·.caseId)) =
      .ok [.jstr "TC-PRE-001", .jstr "TC-A-001"] :=
  rfl

/-! ## Claim C5, counterexample -/

/-- A block whose only `TC` token sits on its second line. -/
def c5RawSecondLine : String := "## case one\nTC-SEC-001 step"

/-- C5, counterexample: the fallback does NOT scan "any line" — a `TC`
token on the block's second line is never found, so the block yields no
record at all. -/
theorem c5_fallback_ignores_later_lines :
    parse_test_cases_structured "系统测试" c5RawSecondLine = .ok [] :=
  rfl

/-! ## Claim C9, counterexample -/

/-- A schema-conforming document whose record maps `case_id` to `null`. -/
def c9RawNull : String := "\x7b\"test_cases\":[\x7b\"case_id\":null\x7d]\x7d"

/-- C9, counterexample: the JSON branch copies an explicit `null` into the
record — the resulting collection holds a record whose identifier field is
null, not a string. -/
theorem c9_null_field_reaches_the_record :
    parse_test_cases_structured "系统测试" c9RawNull =
      .ok [⟨.jnull, .jstr "未指定", .jstr "系统测试", .jstr "未指定",
            .jstr "未指定", .jstr "未指定", .jstr "未指定"⟩] ∧
    allStringFields ⟨.jnull, .jstr "未指定", .jstr "系统测试", .jstr "未指定",
      .jstr "未指定", .jstr "未指定", .jstr "未指定"⟩ = false :=
  ⟨rfl, rfl⟩

/-! ## Structure of `parseBlock` results -/

/-- A retained block's record: identifier not the sentinel, every field the
string the field extractors produce. -/
theorem parseBlock_eq_some {b : String} {r : TC} (h : parseBlock b = some r) :
    blockId b ≠ "未指定" ∧
    r = ⟨.jstr (blockId b), .jstr (segField b "标题"), .jstr (segField b "测试级别"),
         .jstr (segField b "优先级"), .jstr (segField b "前置条件"),
         .jstr (segFieldFmt b "测试步骤"), .jstr (segFieldFmt b "预期结果")⟩ := by
  unfold parseBlock at h
  split at h
  · exact absurd h (by simp)
  · split at h
    · exact absurd h (by simp)
    · next hc =>
      refine ⟨fun he => hc ?_, (Option.some.inj h).symm⟩
      rw [he]
      rfl

/-! ## Claim C10 -/

/-- C10: the segmenting branch never returns a record whose identifier is
the sentinel `未指定` (such blocks are dropped); a block whose explicit
`用例ID` label carries the literal value `未指定` yields no record; the JSON
branch CAN return a record whose identifier is the sentinel (source mapping
without `case_id`). -/
theorem segmenting_identifier_never_sentinel :
    (∀ (text : String) (r : TC), r ∈ parseSegmenting text →
      r.caseId ≠ .jstr "未指定") ∧
    parse_test_cases_structured "系统测试" "## X\n用例ID：未指定" = .ok [] ∧
    parse_test_cases_structured "系统测试" "\x7b\"test_cases\":[\x7b\x7d]\x7d" =
      .ok [⟨.jstr "未指定", .jstr "未指定", .jstr "系统测试", .jstr "未指定",
            .jstr "未指定", .jstr "未指定", .jstr "未指定"⟩] := by
  refine ⟨?_, rfl, rfl⟩
  intro text r hr
  obtain ⟨b, _, hpb⟩ := List.mem_filterMap.mp hr
  obtain ⟨hne, hrec⟩ := parseBlock_eq_some hpb
  rw [hrec]
  intro heq
  exact hne (JVal.jstr.inj heq)

/-- The record of the block `## A` + `用例ID: TC-9`. -/
def c10Rec : TC :=
  ⟨.jstr "TC-9", .jstr "未指定", .jstr "未指定", .jstr "未指定",
   .jstr "未指定", .jstr "未指定", .jstr "未指定"⟩

/-- C10, witness: the record parsed from `## A` + `用例ID: TC-9` has a
non-sentinel identifier. -/
theorem segmenting_identifier_never_sentinel_witness :
    c10Rec.caseId ≠ .jstr "未指定" :=
  segmenting_identifier_never_sentinel.1 "## A\n用例ID: TC-9" c10Rec (by
    have h : parseSegmenting "## A\n用例ID: TC-9" = [c10Rec] := rfl
    rw [h]
    exact List.mem_singleton.mpr rfl)

/-! ## Claim C9, amended -/

/-- Python `tc.get(k, "未指定")` yields a string whenever the mapping binds only
strings. -/
theorem jGet_str {f : List (String × JVal)}
    (hf : ∀ p ∈ f, ∃ s, p.2 = JVal.jstr s) (k : String) :
    ∃ s, jGet f k = .jstr s := by
  unfold jGet jobjLookup
  cases hfind : f.find? (fun p => p.1 == k) with
  | none => exact ⟨"未指定", rfl⟩
  | some p =>
    obtain ⟨s, hs⟩ := hf p (List.mem_of_find?_eq_some hfind)
    exact ⟨s, by simp [hs]⟩

/-- On a string, `format_numbered_text` never raises and returns the
re-flowed string. -/
theorem fmtJ_str (s : String) :
    fmtJ (.jstr s) = .ok (.jstr (format_numbered_text s)) := by
  unfold fmtJ pyTruthy
  by_cases h : s.isEmpty
  · simp only [h, Bool.not_true, Bool.not_false, if_true]
    unfold format_numbered_text
    rw [if_pos h]
  · simp [h]

/-- An element surviving `exceptMapM` satisfies anything the elementwise
results satisfy. -/
theorem exceptMapM_mem {α β : Type} {g : α → Except PyExc β} {Q : β → Prop}
    {l : List α} :
    ∀ {out : List β}, exceptMapM g l = .ok out →
      (∀ x ∈ l, ∀ r, g x = .ok r → Q r) → ∀ r ∈ out, Q r := by
  induction l with
  | nil =>
    intro out h _ r hr
    simp only [exceptMapM] at h
    cases Except.ok.inj h
    exact absurd hr (List.not_mem_nil r)
  | cons x xs ih =>
    intro out h hg r hr
    simp only [exceptMapM] at h
    cases hx : g x with
    | error e => rw [hx] at h; simp at h
    | ok y =>
      rw [hx] at h
      cases hrest : exceptMapM g xs with
      | error e => rw [hrest] at h; simp at h
      | ok ys =>
        rw [hrest] at h
        cases Except.ok.inj h
        rcases List.mem_cons.mp hr with hre | hrm
        · exact hre ▸ hg x (List.mem_cons_self x xs) y hx
        · exact ih hrest (fun a ha => hg a (List.mem_cons_of_mem x ha)) r hrm

/-- A JSON-branch record built from an all-string mapping has all-string
fields. -/
theorem jsonTcRecord_allString {lvl : String} {f : List (String × JVal)} {r : TC}
    (hf : ∀ p ∈ f, ∃ s, p.2 = JVal.jstr s)
    (h : jsonTcRecord lvl (.jobj f) = .ok r) :
    allStringFields r = true := by
  obtain ⟨s1, h1⟩ := jGet_str hf "steps"
  obtain ⟨s2, h2⟩ := jGet_str hf "expected_result"
  obtain ⟨s3, h3⟩ := jGet_str hf "case_id"
  obtain ⟨s4, h4⟩ := jGet_str hf "title"
  obtain ⟨s5, h5⟩ := jGet_str hf "priority"
  obtain ⟨s6, h6⟩ := jGet_str hf "precondition"
  simp only [jsonTcRecord] at h
  rw [h1, h2, fmtJ_str, fmtJ_str] at h
  have hr : r = ⟨jGet f "case_id", jGet f "title", .jstr lvl, jGet f "priority",
      jGet f "precondition", .jstr (format_numbered_text s1),
      .jstr (format_numbered_text s2)⟩ := (Except.ok.inj h).symm
  rw [hr, h3, h4, h5, h6]
  rfl

/-- C9, amended: every field of every record is populated, with the
sentinel `未指定` standing in for a field that could not be located.  All
fields are strings — unconditionally on the segmenting branch, and on the
JSON branch whenever the source mappings bind keys only to strings; an
explicit non-string value (such as `null`) is copied into the record as-is
(see the counterexample). -/
theorem all_fields_populated_with_strings :
    (∀ (text : String) (r : TC), r ∈ parseSegmenting text →
      allStringFields r = true) ∧
    (∀ (testLevel : String) (tcs : List JVal) (data : List TC),
      jsonBranch testLevel (.jarr tcs) = .ok data →
      (∀ tc ∈ tcs, ∃ f, tc = JVal.jobj f ∧ ∀ p ∈ f, ∃ s, p.2 = JVal.jstr s) →
      ∀ r ∈ data, allStringFields r = true) := by
  constructor
  · intro text r hr
    obtain ⟨b, _, hpb⟩ := List.mem_filterMap.mp hr
    obtain ⟨_, hrec⟩ := parseBlock_eq_some hpb
    rw [hrec]
    rfl
  · intro lvl tcs data h hstr
    refine exceptMapM_mem h ?_
    intro tc htc r hrec
    obtain ⟨f, hf, hvals⟩ := hstr tc htc
    subst hf
    exact jsonTcRecord_allString hvals hrec

/-! ## `listFind` soundness and completeness -/

/-- A found index really carries an occurrence. -/
theorem listFind_sound {needle : List Char} :
    ∀ {hay : List Char} {i : Nat}, listFind needle hay = some i →
      needle.isPrefixOf (hay.drop i) = true := by
  intro hay
  induction hay with
  | nil =>
    intro i h
    simp only [listFind] at h
    by_cases hn : needle.isEmpty
    · rw [if_pos hn] at h
      cases Option.some.inj h
      cases needle
      · rfl
      · exact absurd hn (by simp)
    · rw [if_neg hn] at h
      exact absurd h (by simp)
  | cons c t ih =>
    intro i h
    simp only [listFind] at h
    by_cases hp : needle.isPrefixOf (c :: t)
    · rw [if_pos hp] at h
      cases Option.some.inj h
      simpa using hp
    · rw [if_neg hp] at h
      cases hft : listFind needle t with
      | none => rw [hft] at h; simp at h
      | some j =>
        rw [hft] at h
        simp only [Option.map_some'] at h
        cases Option.some.inj h
        simpa using ih hft

/-- An occurrence guarantees `listFind` succeeds. -/
theorem listFind_isSome_of_occurrence {needle : List Char} :
    ∀ {hay : List Char} {i : Nat}, needle.isPrefixOf (hay.drop i) = true →
      (listFind needle hay).isSome = true := by
  intro hay
  induction hay with
  | nil =>
    intro i h
    rw [List.drop_nil] at h
    have hn : needle.isEmpty = true := by
      cases needle with
      | nil => rfl
      | cons a b => exact absurd h (by simp [List.isPrefixOf])
    simp [listFind, hn]
  | cons c t ih =>
    intro i h
    cases i with
    | zero =>
      simp only [List.drop_zero] at h
      simp [listFind, h]
    | succ j =>
      simp only [List.drop_succ_cons] at h
      have hrec := ih (i := j) h
      simp only [listFind]
      by_cases hp : needle.isPrefixOf (c :: t)
      · simp [hp]
      · simp [hp, hrec]

/-! ## Claim C7 -/

/-- C7: when a fenced `json` block with a closing fence is present and its
enclosed (stripped) content fails to parse, `extract_json_from_text` returns
the not-found signal `None` — whatever the rest of the string holds, the
whole-string parse is never attempted. -/
theorem broken_fenced_block_yields_none (text : String) (s eIdx : Nat)
    (hs : listFind "```json".toList text.toList = some s)
    (he : listFindFrom "```".toList text.toList (s + 7) = some eIdx)
    (hbad : pyJsonLoads (String.mk (pyStrip
        ((text.toList.drop (s + 7)).take (eIdx - (s + 7))))) =
      .error .jsonDecodeError) :
    extract_json_from_text text = .ok none := by
  have hc1 : strContains text "```json" = true := by
    unfold strContains listContains
    rw [hs]
    rfl
  have hc2 : strContains text "```" = true := by
    unfold strContains listContains
    have hpre := listFind_sound hs
    have hpre3 : ("```".toList).isPrefixOf (text.toList.drop s) = true := by
      rw [List.isPrefixOf_iff_prefix] at hpre ⊢
      exact List.IsPrefix.trans (by decide) hpre
    exact listFind_isSome_of_occurrence (i := s) hpre3
  have hbody : extractBody text = .error .jsonDecodeError := by
    unfold extractBody
    rw [if_pos (show (strContains text "```json" && strContains text "```") = true
      by rw [hc1, hc2]; rfl)]
    simp only [hs, he]
    exact hbad
  unfold extract_json_from_text
  rw [hbody]

/-- The C7 instance: the fence's content `,,` is invalid JSON although the
WHOLE string is a perfectly valid JSON string literal. -/
def c7Raw : String := "\"```json ,, ```\""

/-- C7, witness: on `c7Raw` extraction returns `None` even though parsing
the whole string would have succeeded — the broken fence does not fall
through. -/
theorem broken_fenced_block_yields_none_witness :
    extract_json_from_text c7Raw = .ok none ∧
    pyJsonLoads c7Raw = .ok (.jstr "```json ,, ```") :=
  ⟨broken_fenced_block_yields_none c7Raw 1 12 rfl rfl rfl, rfl⟩

/-! ## Claim C8 -/

/-- C8: for every input string, `extract_json_from_text` returns a parsed
value or the not-found signal `None`; its `except` clause covers every
exception the body can raise, so nothing propagates to the caller. -/
theorem extract_json_never_raises (text : String) :
    ∃ v : Option JVal, extract_json_from_text text = .ok v :=
  extractTotal text

/-! ## Claim C4, amended -/

/-- Running the block accumulator through non-heading lines only extends
the current block. -/
theorem splitBlocksAux_nonheading (ls : List String) :
    ∀ (pre : List String) (cur : List String),
      (∀ l ∈ pre, isHeadingLine l = false) →
      splitBlocksAux cur (pre ++ ls) = splitBlocksAux (pre.reverse ++ cur) ls := by
  intro pre
  induction pre with
  | nil => intro cur _; simp
  | cons p ps ih =>
    intro cur hpre
    have hp : isHeadingLine p = false := hpre p (List.mem_cons_self p ps)
    simp only [List.cons_append, splitBlocksAux, hp, Bool.false_eq_true, if_false,
      List.append_eq]
    rw [ih (p :: cur) (fun l hl => hpre l (List.mem_cons_of_mem p hl))]
    congr 1
    simp

/-- C4, amended: the text before the first heading line is NOT discarded —
it forms an initial block, parsed like any other; the parser's result is
that block's record (if its identifier is found; otherwise nothing)
followed by the records of the heading-delimited remainder. -/
theorem preamble_parsed_as_initial_block (pre rest : List String) (L : String)
    (h1 : pre ≠ []) (h2 : ∀ l ∈ pre, isHeadingLine l = false)
    (h3 : isHeadingLine L = true) :
    (splitBlocks (pre ++ L :: rest)).filterMap parseBlock =
      (parseBlock (joinNL pre)).toList ++
        (splitBlocks (L :: rest)).filterMap parseBlock := by
  have key : splitBlocks (pre ++ L :: rest) = joinNL pre :: splitBlocks (L :: rest) := by
    unfold splitBlocks
    rw [splitBlocksAux_nonheading (L :: rest) pre [] h2]
    have hne : pre.reverse.isEmpty = false := by
      cases hp : pre.reverse with
      | nil => exact absurd (List.reverse_eq_nil_iff.mp hp) h1
      | cons a b => rfl
    simp only [List.append_nil, splitBlocksAux, h3, if_true, hne,
      List.isEmpty_nil, Bool.false_eq_true, if_false, List.reverse_reverse]
  rw [key, List.filterMap_cons]
  cases parseBlock (joinNL pre) <;> simp

/-- C4, witness: the amended statement at the counterexample's document. -/
theorem preamble_parsed_as_initial_block_witness :
    (splitBlocks (["用例ID: TC-PRE-001"] ++ "## A" :: ["用例ID: TC-A-001"])).filterMap
        parseBlock =
      (parseBlock (joinNL ["用例ID: TC-PRE-001"])).toList ++
        (splitBlocks ("## A" :: ["用例ID: TC-A-001"])).filterMap parseBlock :=
  preamble_parsed_as_initial_block ["用例ID: TC-PRE-001"] ["用例ID: TC-A-001"] "## A"
    (by simp)
    (by intro l hl; rw [List.mem_singleton.mp hl]; rfl)
    rfl

/-! ## Claim C5, amended -/

/-- An element failing the predicate survives `dropWhile`. -/
theorem mem_dropWhile_of_not {p : Char → Bool} {c : Char} (hc : p c = false) :
    ∀ {l : List Char}, c ∈ l → c ∈ l.dropWhile p := by
  intro l
  induction l with
  | nil => intro h; exact absurd h (List.not_mem_nil c)
  | cons x xs ih =>
    intro h
    rw [List.dropWhile_cons]
    by_cases hx : p x = true
    · rw [hx, if_pos rfl]
      rcases List.mem_cons.mp h with he | hm
      · rw [he] at hc; rw [hc] at hx; exact absurd hx (by simp)
      · exact ih hm
    · rw [Bool.not_eq_true] at hx
      rw [hx]
      simpa using h

/-- Python `strip` keeps any non-whitespace character, so its result is non-empty
whenever one exists. -/
theorem pyStrip_ne_nil {cs : List Char} {c : Char} (hc : pyIsSpace c = false)
    (hm : c ∈ cs) : pyStrip cs ≠ [] := by
  unfold pyStrip
  intro h
  have h1 : c ∈ cs.dropWhile pyIsSpace := mem_dropWhile_of_not hc hm
  have h2 : c ∈ (cs.dropWhile pyIsSpace).reverse := List.mem_reverse.mpr h1
  have h3 : c ∈ (cs.dropWhile pyIsSpace).reverse.dropWhile pyIsSpace :=
    mem_dropWhile_of_not hc h2
  rw [List.reverse_eq_nil_iff.mp h] at h3
  exact absurd h3 (List.not_mem_nil c)

/-- Python `strip` is the identity on whitespace-free text. -/
theorem pyStrip_of_no_space {t : List Char} (h : ∀ c ∈ t, pyIsSpace c = false) :
    pyStrip t = t := by
  unfold pyStrip
  have h1 : t.dropWhile pyIsSpace = t := by
    cases t with
    | nil => rfl
    | cons x xs =>
      rw [List.dropWhile_cons, h x (List.mem_cons_self x xs)]
      simp
  rw [h1]
  have h2 : t.reverse.dropWhile pyIsSpace = t.reverse := by
    cases ht : t.reverse with
    | nil => rfl
    | cons x xs =>
      rw [List.dropWhile_cons,
        h x (List.mem_reverse.mp (ht ▸ List.mem_cons_self x xs))]
      simp [ht]
  rw [h2, List.reverse_reverse]

/-- Every token `split()` produces is whitespace-free. -/
theorem splitWsAux_tokens {fuel : Nat} :
    ∀ {cs tok : List Char}, tok ∈ splitWsAux fuel cs →
      ∀ c ∈ tok, pyIsSpace c = false := by
  induction fuel with
  | zero => intro cs tok h; exact absurd h (List.not_mem_nil _)
  | succ n ih =>
    intro cs tok h
    simp only [splitWsAux] at h
    cases hd : cs.dropWhile pyIsSpace with
    | nil => rw [hd] at h; exact absurd h (List.not_mem_nil _)
    | cons c0 rest =>
      rw [hd] at h
      rcases List.mem_cons.mp h with he | hm
      · intro c hc
        rw [he] at hc
        have hp := List.mem_takeWhile_imp hc
        simpa using hp
      · exact ih hm

/-- A token found by `tcWordOf` is whitespace-free (so `strip` keeps it)
and starts with `TC`. -/
theorem tcWordOf_token {line w : String} (h : tcWordOf line = some w) :
    strStrip w = w ∧ strStarts w "TC" = true := by
  unfold tcWordOf at h
  have hpred := List.find?_some h
  have hmem := List.mem_of_find?_eq_some h
  refine ⟨?_, hpred⟩
  unfold strSplitWs at hmem
  obtain ⟨tok, htok, hw⟩ := List.mem_map.mp hmem
  have hns : ∀ c ∈ tok, pyIsSpace c = false := splitWsAux_tokens htok
  rw [← hw]
  unfold strStrip
  show String.mk (pyStrip tok) = String.mk tok
  rw [pyStrip_of_no_space hns]

/-- The head of an accumulator run is the accumulator plus a prefix of the
remaining input. -/
theorem splitOnAux_head_front {sep : List Char} :
    ∀ {fuel : Nat} {acc cs h : List Char},
      (splitOnAux sep fuel acc cs).head? = some h →
      ∃ t, h = acc.reverse ++ t ∧ t <+: cs := by
  intro fuel
  induction fuel with
  | zero =>
    intro acc cs h hh
    simp only [splitOnAux, List.head?_cons] at hh
    cases Option.some.inj hh
    exact ⟨cs, rfl, List.prefix_rfl⟩
  | succ n ih =>
    intro acc cs h hh
    cases cs with
    | nil =>
      simp only [splitOnAux, List.head?_cons] at hh
      cases Option.some.inj hh
      exact ⟨[], (List.append_nil _).symm, List.nil_prefix⟩
    | cons c rest =>
      simp only [splitOnAux] at hh
      by_cases hp : sep.isPrefixOf (c :: rest) = true
      · rw [if_pos hp, List.head?_cons] at hh
        cases Option.some.inj hh
        exact ⟨[], (List.append_nil _).symm, List.nil_prefix⟩
      · rw [Bool.not_eq_true] at hp
        simp only [hp, Bool.false_eq_true, if_false] at hh
        obtain ⟨t, ht, hpre⟩ := ih hh
        refine ⟨c :: t, ?_, List.cons_prefix_cons.mpr ⟨rfl, hpre⟩⟩
        rw [ht]
        simp

/-- The first piece of a split is a prefix of the split string. -/
theorem strSplitOn_head_front {s sep h : String}
    (hh : (strSplitOn s sep).head? = some h) : h.toList <+: s.toList := by
  unfold strSplitOn at hh
  rw [List.head?_map] at hh
  cases hx : (pySplitOn s.toList sep.toList).head? with
  | none => rw [hx] at hh; exact absurd hh (by simp)
  | some h0 =>
    rw [hx, Option.map_some'] at hh
    cases Option.some.inj hh
    unfold pySplitOn at hx
    obtain ⟨t, ht, hpre⟩ := splitOnAux_head_front hx
    simp only [List.reverse_nil, List.nil_append] at ht
    show (String.mk h0).toList <+: s.toList
    rw [show (String.mk h0).toList = h0 from rfl, ht]
    exact hpre

/-- A line containing `TC-` or `TC_` contains the character `T`. -/
theorem mem_T_of_contains {header : String}
    (h : strContains header "TC-" = true ∨ strContains header "TC_" = true) :
    'T' ∈ header.toList := by
  rcases h with h | h <;>
  · unfold strContains listContains at h
    obtain ⟨i, hi⟩ := Option.isSome_iff_exists.mp h
    have hs := listFind_sound hi
    rw [List.isPrefixOf_iff_prefix] at hs
    obtain ⟨t2, ht2⟩ := hs
    refine List.mem_of_mem_drop (n := i) ?_
    rw [← ht2]
    simp

/-- C5, amended: when a block holds no `用例ID` label, the fallback scans
ONLY the block's first line, and only when that line contains `TC-` or
`TC_`; the line's first whitespace-token starting with `TC` becomes the
identifier (lines after the first are never scanned — see the
counterexample). -/
theorem fallback_identifier_from_first_line (block header w : String)
    (h1 : strContains block "用例ID" = false)
    (h2 : (strSplitOn block "\n").head? = some header)
    (h3 : strContains header "TC-" = true ∨ strContains header "TC_" = true)
    (h4 : tcWordOf header = some w) :
    parseBlock block = some ⟨.jstr w, .jstr (segField block "标题"),
      .jstr (segField block "测试级别"), .jstr (segField block "优先级"),
      .jstr (segField block "前置条件"), .jstr (segFieldFmt block "测试步骤"),
      .jstr (segFieldFmt block "预期结果")⟩ := by
  obtain ⟨hwstrip, hwTC⟩ := tcWordOf_token h4
  have hph : blockIdPhase1 block = "未指定" := by
    unfold blockIdPhase1
    rw [h1]
    simp
  obtain ⟨tl, hsplit⟩ : ∃ tl, strSplitOn block "\n" = header :: tl := by
    cases hx : strSplitOn block "\n" with
    | nil => rw [hx] at h2; exact absurd h2 (by simp)
    | cons a b =>
      rw [hx, List.head?_cons] at h2
      cases Option.some.inj h2
      exact ⟨b, rfl⟩
  have hid : blockId block = w := by
    unfold blockId
    rw [hph, hsplit]
    simp only [List.head?_cons, beq_self_eq_true, if_true]
    rcases h3 with h3 | h3 <;>
      simp only [h3, Bool.true_or, Bool.or_true, if_true, h4, hwstrip]
  have hT : 'T' ∈ block.toList :=
    (strSplitOn_head_front h2).subset (mem_T_of_contains h3)
  have hb : (pyStrip block.toList).isEmpty = false := by
    cases hx : pyStrip block.toList with
    | nil => exact absurd hx (pyStrip_ne_nil (by decide) hT)
    | cons a b => rfl
  have hne : blockId block ≠ "未指定" := by
    rw [hid]
    intro he
    rw [he] at hwTC
    exact absurd hwTC (by decide)
  unfold parseBlock
  rw [hb]
  simp only [Bool.false_eq_true, if_false]
  rw [if_neg (by rw [beq_eq_false_iff_ne.mpr hne]; exact Bool.false_ne_true), hid]

/-- C5, witness: a heading line that itself carries the `TC` token. -/
theorem fallback_identifier_from_first_line_witness :
    parseBlock "## TC-W-001 login" = some ⟨.jstr "TC-W-001",
      .jstr (segField "## TC-W-001 login" "标题"),
      .jstr (segField "## TC-W-001 login" "测试级别"),
      .jstr (segField "## TC-W-001 login" "优先级"),
      .jstr (segField "## TC-W-001 login" "前置条件"),
      .jstr (segFieldFmt "## TC-W-001 login" "测试步骤"),
      .jstr (segFieldFmt "## TC-W-001 login" "预期结果")⟩ :=
  fallback_identifier_from_first_line "## TC-W-001 login" "## TC-W-001 login"
    "TC-W-001" rfl rfl (Or.inl rfl) rfl

/-! ## Claim C2, amended -/

/-- A canonical source record: a mapping binding all six schema keys to
strings, with steps and expected result already fixed points of the
numbering normalization. -/
def CanonicalTc (tc : JVal) : Prop :=
  ∃ f, tc = JVal.jobj f ∧
    (∃ s, jobjLookup f "case_id" = some (.jstr s)) ∧
    (∃ s, jobjLookup f "title" = some (.jstr s)) ∧
    (∃ s, jobjLookup f "priority" = some (.jstr s)) ∧
    (∃ s, jobjLookup f "precondition" = some (.jstr s)) ∧
    (∃ s, jobjLookup f "steps" = some (.jstr s) ∧ format_numbered_text s = s) ∧
    (∃ s, jobjLookup f "expected_result" = some (.jstr s) ∧
      format_numbered_text s = s)

/-- The round-trip target, following the spec's words (§8 Round-trip): the
identity embedding of an original source record into the record schema —
the six canonical fields copied UNCHANGED, the user-chosen level injected. -/
def specRoundTripRecord (testLevel : String) (tc : JVal) : TC :=
  match tc with
  | .jobj f =>
    ⟨jGet f "case_id", jGet f "title", .jstr testLevel, jGet f "priority",
     jGet f "precondition", jGet f "steps", jGet f "expected_result"⟩
  | _ => ⟨.jstr "未指定", .jstr "未指定", .jstr testLevel, .jstr "未指定",
          .jstr "未指定", .jstr "未指定", .jstr "未指定"⟩

/-- Pointwise-successful `exceptMapM` is `map`. -/
theorem exceptMapM_congr {α β : Type} {g : α → Except PyExc β} {h : α → β} :
    ∀ {l : List α}, (∀ x ∈ l, g x = .ok (h x)) →
      exceptMapM g l = .ok (l.map h) := by
  intro l
  induction l with
  | nil => intro _; rfl
  | cons x xs ih =>
    intro hall
    simp only [exceptMapM]
    rw [hall x (List.mem_cons_self x xs),
      ih (fun a ha => hall a (List.mem_cons_of_mem x ha))]
    rfl

/-- On a canonical record the JSON branch is the identity embedding. -/
theorem jsonTcRecord_canonical {lvl : String} {tc : JVal} (hc : CanonicalTc tc) :
    jsonTcRecord lvl tc = .ok (specRoundTripRecord lvl tc) := by
  obtain ⟨f, rfl, _, _, _, _, ⟨s5, h5, h5f⟩, ⟨s6, h6, h6f⟩⟩ := hc
  have hg5 : jGet f "steps" = .jstr s5 := by unfold jGet; rw [h5]; rfl
  have hg6 : jGet f "expected_result" = .jstr s6 := by unfold jGet; rw [h6]; rfl
  simp only [jsonTcRecord, specRoundTripRecord]
  rw [hg5, hg6, fmtJ_str, fmtJ_str, h5f, h6f]

/-- C2, amended: for a well-formed canonical JSON document matching the
schema in which the steps and expected-result fields are fixed points of
the numbering normalization, Text Extraction followed by the JSON branch
reproduces the original records field-for-field, in order.  (Without the
fixed-point condition the two numbered fields come back re-flowed — see the
counterexample.) -/
theorem roundtrip_on_normalized_documents (testLevel D : String)
    (fs : List (String × JVal)) (tcs : List JVal)
    (h0 : strContains D "```json" = false)
    (h1 : pyJsonLoads D = .ok (.jobj fs))
    (h2 : jobjLookup fs "test_cases" = some (.jarr tcs))
    (h3 : ∀ tc ∈ tcs, CanonicalTc tc) :
    parse_test_cases_structured testLevel D =
      .ok (tcs.map (specRoundTripRecord testLevel)) := by
  have hext : extract_json_from_text D = .ok (some (.jobj fs)) := by
    unfold extract_json_from_text extractBody
    rw [h0]
    simp only [Bool.false_and, Bool.false_eq_true, if_false]
    rw [h1]
  have hfs : fs ≠ [] := by
    intro he
    rw [he] at h2
    exact absurd h2 (by simp [jobjLookup])
  have htruthy : pyTruthy (JVal.jobj fs) = true := by
    unfold pyTruthy
    cases fs with
    | nil => exact absurd rfl hfs
    | cons a b => rfl
  have hany : fs.any (fun p => p.1 == "test_cases") = true := by
    cases hf : fs.find? (fun p => p.1 == "test_cases") with
    | none =>
      unfold jobjLookup at h2
      rw [hf] at h2
      exact absurd h2 (by simp)
    | some p =>
      rw [List.any_eq_true]
      refine ⟨p, List.mem_of_find?_eq_some hf, ?_⟩
      have hp := List.find?_some hf
      simpa using hp
  have hin : pyIn "test_cases" (.jobj fs) = .ok true := by
    show Except.ok (fs.any fun p => p.1 == "test_cases") = Except.ok true
    rw [hany]
  have hidx : pyIndexStr (.jobj fs) "test_cases" = .ok (.jarr tcs) := by
    show (match jobjLookup fs "test_cases" with
      | some x => Except.ok x
      | none => Except.error PyExc.keyError) = Except.ok (JVal.jarr tcs)
    rw [h2]
  unfold parse_test_cases_structured
  simp only [hext, parseDispatch, htruthy, if_true, hin, hidx]
  exact exceptMapM_congr (fun tc htc => jsonTcRecord_canonical (h3 tc htc))

/-- The witness document: all six fields strings, steps already one item
per line. -/
def c2Doc : String :=
  "\x7b\"test_cases\":[\x7b\"case_id\":\"TC-1\",\"title\":\"t\",\"priority\":\"P0\","
    ++ "\"precondition\":\"p\",\"steps\":\"1. a\\n2. b\",\"expected_result\":\"r\"\x7d]\x7d"

/-- The witness document's (single) decoded record. -/
def c2Tc : JVal :=
  .jobj [("case_id", .jstr "TC-1"), ("title", .jstr "t"), ("priority", .jstr "P0"),
         ("precondition", .jstr "p"), ("steps", .jstr "1. a\n2. b"),
         ("expected_result", .jstr "r")]

/-- C2, witness: the round trip at the concrete witness document. -/
theorem roundtrip_on_normalized_documents_witness :
    parse_test_cases_structured "系统测试" c2Doc =
      .ok ([c2Tc].map (specRoundTripRecord "系统测试")) :=
  roundtrip_on_normalized_documents "系统测试" c2Doc
    [("test_cases", .jarr [c2Tc])] [c2Tc] rfl rfl rfl
    (by
      intro tc htc
      rw [List.mem_singleton.mp htc]
      exact ⟨_, rfl, ⟨"TC-1", rfl⟩, ⟨"t", rfl⟩, ⟨"P0", rfl⟩, ⟨"p", rfl⟩,
        ⟨"1. a\n2. b", rfl, rfl⟩, ⟨"r", rfl, rfl⟩⟩)

/-! ## Claim C6 -/

/-- Python `==` is reflexive on strings. -/
theorem pyEq_jstr_self (s : String) : pyEq (.jstr s) (.jstr s) = true :=
  beq_self_eq_true s

/-- The distinct-representative list grows by at most the input's length. -/
theorem dedupList_len_le : ∀ (l seen : List JVal),
    (dedupList seen l).length ≤ seen.length + l.length := by
  intro l
  induction l with
  | nil => intro seen; simp [dedupList]
  | cons x xs ih =>
    intro seen
    simp only [dedupList]
    have h1 : (dedupAdd seen x).length ≤ seen.length + 1 := by
      unfold dedupAdd
      by_cases h : seen.any (fun z => pyEq x z) = true
      · rw [if_pos h]; omega
      · rw [if_neg h]; simp
    have h2 := ih (dedupAdd seen x)
    simp only [List.length_cons]
    omega

/-- Processing more elements never loses the representatives already seen. -/
theorem subset_dedupList : ∀ (l sn : List JVal), sn ⊆ dedupList sn l := by
  intro l
  induction l with
  | nil => intro sn; simp [dedupList]
  | cons x xs ih =>
    intro sn
    simp only [dedupList]
    refine List.Subset.trans ?_ (ih (dedupAdd sn x))
    unfold dedupAdd
    by_cases h : sn.any (fun z => pyEq x z) = true
    · rw [if_pos h]
      exact List.Subset.refl sn
    · rw [if_neg h]
      exact List.subset_cons_self x sn

/-- Representative collection splits over append. -/
theorem dedupList_append : ∀ (l1 l2 sn : List JVal),
    dedupList sn (l1 ++ l2) = dedupList (dedupList sn l1) l2 := by
  intro l1
  induction l1 with
  | nil => intro l2 sn; rfl
  | cons x xs ih =>
    intro l2 sn
    simp only [List.cons_append, dedupList]
    exact ih l2 (dedupAdd sn x)

/-- After inserting `x`, some representative is `==`-equal to `x`. -/
theorem dedupAdd_has_equiv (sn : List JVal) {x : JVal} (hx : pyEq x x = true) :
    ∃ z ∈ dedupAdd sn x, pyEq x z = true := by
  unfold dedupAdd
  by_cases h : sn.any (fun z => pyEq x z) = true
  · rw [if_pos h]
    obtain ⟨z, hz, hpz⟩ := List.any_eq_true.mp h
    exact ⟨z, hz, hpz⟩
  · rw [if_neg h]
    exact ⟨x, List.mem_cons_self x sn, hx⟩

/-- A repeated string identifier makes the distinct count strictly smaller
than the list's length. -/
theorem dedup_lt_of_dup (m1 m2 m3 : List JVal) (s : String) :
    (dedupList [] (m1 ++ (JVal.jstr s :: (m2 ++ JVal.jstr s :: m3)))).length <
      (m1 ++ (JVal.jstr s :: (m2 ++ JVal.jstr s :: m3))).length := by
  have hxx : pyEq (JVal.jstr s) (JVal.jstr s) = true := pyEq_jstr_self s
  have hshape : m1 ++ (JVal.jstr s :: (m2 ++ JVal.jstr s :: m3)) =
      (m1 ++ [JVal.jstr s]) ++ (m2 ++ JVal.jstr s :: m3) := by simp
  rw [hshape, dedupList_append, dedupList_append]
  have hSeq : dedupList [] (m1 ++ [JVal.jstr s]) =
      dedupAdd (dedupList [] m1) (JVal.jstr s) := by
    rw [dedupList_append]
    rfl
  obtain ⟨z, hz, hpz⟩ := dedupAdd_has_equiv (dedupList [] m1) hxx
  have hzS : z ∈ dedupList [] (m1 ++ [JVal.jstr s]) := by rw [hSeq]; exact hz
  have hzT : z ∈ dedupList (dedupList [] (m1 ++ [JVal.jstr s])) m2 :=
    subset_dedupList m2 _ hzS
  have hTx : dedupAdd (dedupList (dedupList [] (m1 ++ [JVal.jstr s])) m2)
      (JVal.jstr s) = dedupList (dedupList [] (m1 ++ [JVal.jstr s])) m2 := by
    unfold dedupAdd
    rw [if_pos (List.any_eq_true.mpr ⟨z, hzT, hpz⟩)]
  have step : dedupList (dedupList (dedupList [] (m1 ++ [JVal.jstr s])) m2)
      (JVal.jstr s :: m3) =
      dedupList (dedupList (dedupList [] (m1 ++ [JVal.jstr s])) m2) m3 := by
    simp only [dedupList, hTx]
  rw [step]
  have b1 : (dedupList [] m1).length ≤ m1.length := by
    have := dedupList_len_le m1 []
    simpa using this
  have b2 : (dedupList [] (m1 ++ [JVal.jstr s])).length ≤ m1.length + 1 := by
    rw [hSeq]
    have : (dedupAdd (dedupList [] m1) (JVal.jstr s)).length ≤
        (dedupList [] m1).length + 1 := by
      unfold dedupAdd
      by_cases h : (dedupList [] m1).any (fun z => pyEq (JVal.jstr s) z) = true
      · rw [if_pos h]; omega
      · rw [if_neg h]; simp
    omega
  have b3 := dedupList_len_le m2 (dedupList [] (m1 ++ [JVal.jstr s]))
  have b4 := dedupList_len_le m3
    (dedupList (dedupList [] (m1 ++ [JVal.jstr s])) m2)
  simp only [List.length_append, List.length_cons]
  omega

/-- Whenever the structured parse succeeds, the count (which re-runs the
same extraction and membership test) succeeds too. -/
theorem count_ok_of_parse_ok {lvl raw : String} {data : List TC}
    (h : parse_test_cases_structured lvl raw = .ok data) :
    ∃ n, count_test_cases raw = .ok n := by
  obtain ⟨v, hv⟩ := extractTotal raw
  unfold parse_test_cases_structured at h
  unfold count_test_cases
  rw [hv] at h ⊢
  cases v with
  | none => exact ⟨mdHeadingCount raw, rfl⟩
  | some j =>
    have h1 : parseDispatch lvl raw (some j) = .ok data := h
    show ∃ n, countDispatch raw (some j) = .ok n
    simp only [parseDispatch] at h1
    simp only [countDispatch]
    by_cases ht : pyTruthy j = true
    · rw [if_pos ht] at h1 ⊢
      cases hin : pyIn "test_cases" j with
      | error e =>
        rw [hin] at h1
        have h2 : (Except.error e : Except PyExc (List TC)) = Except.ok data := h1
        simp at h2
      | ok b =>
        rw [hin] at h1
        cases b with
        | false => exact ⟨mdHeadingCount raw, rfl⟩
        | true =>
          have h2 : (match pyIndexStr j "test_cases" with
              | Except.error e => Except.error e
              | Except.ok tcs => jsonBranch lvl tcs) = Except.ok data := h1
          cases hidx : pyIndexStr j "test_cases" with
          | error e =>
            have h3 : (Except.error e : Except PyExc (List TC)) = Except.ok data := by
              rw [hidx] at h2
              exact h2
            simp at h3
          | ok tcs =>
            rw [hidx] at h2
            have h3 : jsonBranch lvl tcs = .ok data := h2
            cases tcs with
            | jarr l => exact ⟨l.length, rfl⟩
            | jstr t => exact ⟨t.length, rfl⟩
            | jobj f => exact ⟨f.length, rfl⟩
            | jnull => simp [jsonBranch] at h3
            | jbool b2 => simp [jsonBranch] at h3
            | jnum lx => simp [jsonBranch] at h3
    · rw [if_neg ht] at h1 ⊢
      exact ⟨mdHeadingCount raw, rfl⟩

/-- C6: on a collection holding two records that share a (string)
identifier, the Consistency Checker appends the duplicate-identifier
warning to the output text and drops neither record: both are still in the
parsed collection, and the output is the input plus warnings only. -/
theorem duplicate_ids_warned_and_kept (testLevel raw : String) (expected : Nat)
    (data d1 d2 d3 : List TC) (r1 r2 : TC) (s : String)
    (hparse : parse_test_cases_structured testLevel raw = .ok data)
    (hdata : data = d1 ++ r1 :: d2 ++ r2 :: d3)
    (hid1 : r1.caseId = .jstr s) (hid2 : r2.caseId = .jstr s)
    (hall : ∀ r ∈ data, ∃ t, r.caseId = .jstr t) :
    r1 ∈ data ∧ r2 ∈ data ∧
    ∃ n, count_test_cases raw = .ok n ∧
      validate_and_format_testcases testLevel raw expected =
        .ok ((if n ≠ expected then raw ++ countWarning n expected else raw)
          ++ dupWarning) := by
  have hm1 : r1 ∈ data := by rw [hdata]; simp
  have hm2 : r2 ∈ data := by rw [hdata]; simp
  refine ⟨hm1, hm2, ?_⟩
  obtain ⟨n, hn⟩ := count_ok_of_parse_ok hparse
  refine ⟨n, hn, ?_⟩
  have hids : data.map (·.caseId) = d1.map (·.caseId) ++ JVal.jstr s ::
      (d2.map (·.caseId) ++ JVal.jstr s :: d3.map (·.caseId)) := by
    rw [hdata]
    simp [hid1, hid2]
  have hhash : (data.map (·.caseId)).all pyHashable = true := by
    rw [List.all_eq_true]
    intro id hidm
    obtain ⟨r, hr, hre⟩ := List.mem_map.mp hidm
    obtain ⟨t, hts⟩ := hall r hr
    rw [← hre, hts]
    rfl
  have hlt : (dedupList [] (data.map (·.caseId))).length <
      (data.map (·.caseId)).length := by
    rw [hids]
    exact dedup_lt_of_dup _ _ _ s
  have hsize : pySetSize (data.map (·.caseId)) =
      .ok (dedupList [] (data.map (·.caseId))).length := by
    unfold pySetSize
    rw [if_pos hhash]
  have hdne : data.isEmpty = false := by
    rw [hdata]
    cases d1 <;> rfl
  have hulen : (dedupList [] (data.map (·.caseId))).length ≠ data.length := by
    have hmap : (data.map (·.caseId)).length = data.length := List.length_map data _
    omega
  unfold validate_and_format_testcases
  simp only [hn, hparse, hdne, Bool.false_eq_true, if_false, hsize,
    if_pos hulen]

/-- The C6 witness document: two blocks sharing the identifier `TC-1`. -/
def c6Raw : String := "## A\n用例ID: TC-1\n## B\n用例ID: TC-1"

/-- The (identical) record either C6 witness block parses to. -/
def c6Rec : TC :=
  ⟨.jstr "TC-1", .jstr "未指定", .jstr "未指定", .jstr "未指定",
   .jstr "未指定", .jstr "未指定", .jstr "未指定"⟩

/-- C6, witness: on the concrete duplicate document (expected count 2, which
matches, so no count warning) validation appends exactly the duplicate
warning. -/
theorem duplicate_ids_warned_and_kept_witness :
    validate_and_format_testcases "系统测试" c6Raw 2 = .ok (c6Raw ++ dupWarning) := by
  obtain ⟨_, _, n, hn, hv⟩ := duplicate_ids_warned_and_kept "系统测试" c6Raw 2
    [c6Rec, c6Rec] [] [] [] c6Rec c6Rec "TC-1" rfl rfl rfl rfl
    (by
      intro r hr
      rcases List.mem_cons.mp hr with h | hr2
      · exact ⟨"TC-1", by rw [h]; rfl⟩
      · rcases List.mem_cons.mp hr2 with h | hr3
        · exact ⟨"TC-1", by rw [h]; rfl⟩
        · exact absurd hr3 (List.not_mem_nil r))
  have hn2 : n = 2 := by
    have h2 : count_test_cases c6Raw = .ok 2 := rfl
    rw [hn] at h2
    exact Except.ok.inj h2
  rw [hn2] at hv
  simpa using hv

/-- C9, witness: a concrete all-string source mapping yields an all-string
record through the JSON branch. -/
theorem all_fields_populated_with_strings_witness :
    allStringFields ⟨.jstr "TC-1", .jstr "未指定", .jstr "系统测试", .jstr "未指定",
      .jstr "未指定", .jstr "未指定", .jstr "未指定"⟩ = true :=
  all_fields_populated_with_strings.2 "系统测试"
    [.jobj [("case_id", .jstr "TC-1")]]
    [⟨.jstr "TC-1", .jstr "未指定", .jstr "系统测试", .jstr "未指定",
      .jstr "未指定", .jstr "未指定", .jstr "未指定"⟩]
    rfl
    (by
      intro tc htc
      rw [List.mem_singleton.mp htc]
      exact ⟨[("case_id", .jstr "TC-1")], rfl, by
        intro p hp
        rw [List.mem_singleton.mp hp]
        exact ⟨"TC-1", rfl⟩⟩)
    _ (List.mem_singleton.mpr rfl)

end App
